import Mathlib

/-! The neural-network-collection interface of ccv, `ccv_nnc.h`.

A shallow embedding of `lib/nnc/ccv_nnc.h`.  The header fixes the enumerations,
the bit-level macros and the signatures of the public interface; these are
transcribed literally.  The bodies of the graph functions are not part of the
header, so the symbolic graph, the compiler and the differentiator are
modelled from the written specification, and every such definition says so.
-/

namespace Ccv

/-! ## Enumerations and macros of the header -/

/-- Attribute `CCV_NNC_COMPUTE_ATTR_INPLACE = 0x01`. -/
def CCV_NNC_COMPUTE_ATTR_INPLACE : Nat := 0x01
/-- Attribute `CCV_NNC_COMPUTE_ATTR_PASSTHROUGH = 0x02`. -/
def CCV_NNC_COMPUTE_ATTR_PASSTHROUGH : Nat := 0x02
/-- Attribute `CCV_NNC_COMPUTE_ATTR_OUTPUT_ONES = 0x04`. -/
def CCV_NNC_COMPUTE_ATTR_OUTPUT_ONES : Nat := 0x04
/-- Attribute `CCV_NNC_COMPUTE_ATTR_NULL_IS_ONES = 0x08`. -/
def CCV_NNC_COMPUTE_ATTR_NULL_IS_ONES : Nat := 0x08

/-- The four attribute flags, in declaration order. -/
def compute_attr_flags : List Nat :=
  [CCV_NNC_COMPUTE_ATTR_INPLACE, CCV_NNC_COMPUTE_ATTR_PASSTHROUGH,
   CCV_NNC_COMPUTE_ATTR_OUTPUT_ONES, CCV_NNC_COMPUTE_ATTR_NULL_IS_ONES]

/-- The `attrs` word of `ccv_nnc_compute_attr_t` obtained by OR-ing flags. -/
def attrs_of (flags : List Nat) : Nat := flags.foldr (fun f acc => f ||| acc) 0

/-- The test `(attrs & flag) != 0` by which one attribute is read. -/
def attr_is_set (attrs flag : Nat) : Bool := (attrs &&& flag) != 0

/-- Status `CCV_NNC_EXEC_SUCCESS = 0`. -/
def CCV_NNC_EXEC_SUCCESS : Int := 0
/-- Status `CCV_NNC_EXEC_INVALID = -1`. -/
def CCV_NNC_EXEC_INVALID : Int := -1
/-- Status `CCV_NNC_EXEC_NO_KERNEL = -2`. -/
def CCV_NNC_EXEC_NO_KERNEL : Int := -2
/-- Status `CCV_NNC_EXEC_OOM = -3`. -/
def CCV_NNC_EXEC_OOM : Int := -3

/-- The statuses a command kernel can return, in declaration order. -/
def exec_statuses : List Int :=
  [CCV_NNC_EXEC_SUCCESS, CCV_NNC_EXEC_INVALID, CCV_NNC_EXEC_NO_KERNEL, CCV_NNC_EXEC_OOM]

/-- Domain `CCV_STREAM_CONTEXT_CPU = 0x1`. -/
def CCV_STREAM_CONTEXT_CPU : Nat := 0x1
/-- Domain `CCV_STREAM_CONTEXT_GPU = 0x2`. -/
def CCV_STREAM_CONTEXT_GPU : Nat := 0x2
/-- Macro `CCV_STREAM_GET_CONTEXT(type) ((type) & 0x3)`. -/
def CCV_STREAM_GET_CONTEXT (type : Nat) : Nat := type &&& 0x3
/-- Macro `CCV_STREAM_GET_DEVICE(type) ((type) & 0xff00)`. -/
def CCV_STREAM_GET_DEVICE (type : Nat) : Nat := type &&& 0xff00
/-- Macro `CCV_STREAM_GET_DEVICE_ID(type) (CCV_STREAM_GET_DEVICE(type) >> 8)`. -/
def CCV_STREAM_GET_DEVICE_ID (type : Nat) : Nat := CCV_STREAM_GET_DEVICE type >>> 8

/-- The type tag handed to `ccv_nnc_stream_context_new`: "Flag is a combination
of CPU / GPU and DEVICE_ID". -/
def stream_type (context device_id : Nat) : Nat := context ||| (device_id <<< 8)

/-! ## The documented argument layout of a backward command -/

/-- The three roles an input of a backward command can play. -/
inductive backward_input_role where
  | output_gradient
  | forward_input
  | forward_output
  deriving DecidableEq

/-- The roles the comment above `ccv_nnc_cmd_exec_f` gives to input position
`pos` of the backward command of a forward command with `n` inputs and `m`
outputs: "0~m-1: gradient for output tensors, 1~n: input tensors for forward
functions, n+1~n+m: output tensors for forward functions". -/
def backward_input_roles (n m pos : Nat) : List backward_input_role :=
  (if pos ≤ m - 1 then [backward_input_role.output_gradient] else []) ++
  (if 1 ≤ pos ∧ pos ≤ n then [backward_input_role.forward_input] else []) ++
  (if n + 1 ≤ pos ∧ pos ≤ n + m then [backward_input_role.forward_output] else [])

/-! ## Signatures of the public interface -/

/-- The shapes of return type that occur in the header. -/
inductive c_return where
  | void
  | int
  | uint64
  | pointer
  | by_value
  deriving DecidableEq

/-- One function declaration: its name, return type and parameter names. -/
structure c_decl where
  name : String
  ret : c_return
  params : List String

/-- The function declarations of the header, Level-0 to Level-4, in the order
in which they appear. -/
def public_interface : List c_decl :=
  [ ⟨"ccv_nnc_init", .void, []⟩,
    ⟨"ccv_nnc_tensor_new", .pointer, ["ptr", "params", "flags"]⟩,
    ⟨"ccv_nnc_tensor", .by_value, ["ptr", "params", "flags"]⟩,
    ⟨"ccv_nnc_tensor_free", .void, ["tensor"]⟩,
    ⟨"ccv_nnc_tensor_view_new", .pointer, ["tensor", "ofs", "dim"]⟩,
    ⟨"ccv_nnc_tensor_view", .by_value, ["tensor", "ofs", "dim"]⟩,
    ⟨"ccv_nnc_tensor_view_free", .void, ["tensor_view"]⟩,
    ⟨"ccv_nnc_tensor_zero", .void, ["tensor"]⟩,
    ⟨"ccv_nnc_tensor_eq", .int, ["a", "b"]⟩,
    ⟨"ccv_nnc_cmd_mono_time", .uint64, []⟩,
    ⟨"ccv_nnc_cmd_backend", .int, ["name"]⟩,
    ⟨"ccv_nnc_cmd_compute_name", .pointer, ["compute"]⟩,
    ⟨"ccv_nnc_cmd_backend_name", .pointer, ["backend"]⟩,
    ⟨"ccv_nnc_cmd", .by_value, ["compute", "exec", "params", "flags"]⟩,
    ⟨"ccv_nnc_hint_verify", .int, ["hint", "cmd", "a", "b"]⟩,
    ⟨"ccv_nnc_hint_auto", .by_value, ["cmd", "a", "b"]⟩,
    ⟨"ccv_nnc_hint_tensor_auto", .void,
      ["cmd", "inputs", "input_size", "hint", "outputs", "output_size"]⟩,
    ⟨"ccv_nnc_cmd_autotune", .by_value,
      ["cmd", "max_workspace_size", "hint", "flags", "inputs", "input_size", "outputs",
       "output_size", "stream_context"]⟩,
    ⟨"ccv_nnc_cmd_exec", .int,
      ["cmd", "hint", "flags", "inputs", "input_size", "outputs", "output_size",
       "stream_context"]⟩,
    ⟨"ccv_nnc_cmd_attr", .int, ["cmd", "flags"]⟩,
    ⟨"ccv_nnc_cmd_is_forward", .int, ["cmd"]⟩,
    ⟨"ccv_nnc_cmd_is_backward", .int, ["cmd"]⟩,
    ⟨"ccv_nnc_stream_context_new", .pointer, ["type"]⟩,
    ⟨"ccv_nnc_stream_context_wait", .void, ["stream"]⟩,
    ⟨"ccv_nnc_stream_context_free", .void, ["stream_context"]⟩,
    ⟨"ccv_nnc_stream_signal_new", .pointer, ["type"]⟩,
    ⟨"ccv_nnc_stream_context_emit_signal", .void, ["stream", "signal"]⟩,
    ⟨"ccv_nnc_stream_context_wait_signal", .void, ["stream", "signal"]⟩,
    ⟨"ccv_nnc_stream_signal_free", .void, ["signal"]⟩,
    ⟨"ccv_nnc_graph_new", .pointer, []⟩,
    ⟨"ccv_nnc_graph_exec", .by_value,
      ["graph", "cmd", "hint", "inputs", "input_size", "outputs", "output_size"]⟩,
    ⟨"ccv_nnc_graph_exec_concat", .int, ["graph", "source", "destination"]⟩,
    ⟨"ccv_nnc_graph_autotune", .void,
      ["graph", "max_workspace_size", "flags", "sources", "source_size",
       "destinations", "destination_size"]⟩,
    ⟨"ccv_nnc_graph_run", .void,
      ["graph", "flags", "sources", "source_size", "destinations",
       "destination_size"]⟩,
    ⟨"ccv_nnc_graph_free", .void, ["graph"]⟩,
    ⟨"ccv_nnc_symbolic_graph_new", .pointer, []⟩,
    ⟨"ccv_nnc_tensor_symbol", .by_value, ["graph", "info", "name"]⟩,
    ⟨"ccv_nnc_tensor_symbol_alias", .by_value,
      ["graph", "tensor_symbol", "ofs", "inc", "info", "name"]⟩,
    ⟨"ccv_nnc_graph_exec_symbol", .by_value,
      ["graph", "cmd", "inputs", "input_size", "outputs", "output_size", "name"]⟩,
    ⟨"ccv_nnc_graph_exec_symbol_set_hint", .int, ["graph", "exec", "hint"]⟩,
    ⟨"ccv_nnc_tensor_symbol_set", .int, ["graph", "tensor", "info"]⟩,
    ⟨"ccv_nnc_graph_exec_symbol_concat", .int, ["graph", "source", "destination"]⟩,
    ⟨"ccv_nnc_graph_exec_symbol_flow", .int, ["graph", "execs", "exec_size"]⟩,
    ⟨"ccv_nnc_symbolic_graph_dot", .void, ["graph", "out"]⟩,
    ⟨"ccv_nnc_symbolic_graph_compile", .void,
      ["graph", "tensor_binds", "tensor_binds_size", "sources", "source_size",
       "destinations", "destination_size", "graph_ref", "tensor_arena_ref",
       "graph_exec_arena_ref"]⟩,
    ⟨"ccv_nnc_symbolic_graph_free", .void, ["graph"]⟩,
    ⟨"ccv_nnc_tensor_from_symbol", .pointer, ["tensor_arena", "symbol"]⟩,
    ⟨"ccv_nnc_tensor_arena_free", .void, ["tensor_arena"]⟩,
    ⟨"ccv_nnc_graph_exec_from_symbol", .by_value, ["graph_exec_arena", "symbol"]⟩,
    ⟨"ccv_nnc_graph_exec_arena_free", .void, ["graph_exec_arena"]⟩,
    ⟨"ccv_nnc_symbolic_graph_backward", .void,
      ["graph", "sources", "source_size", "destinations", "destination_size",
       "f_symbols", "f_symbol_size", "wrt_symbols", "wrt_symbol_size"]⟩,
    ⟨"ccv_nnc_tensor_symbol_for_backward", .by_value, ["graph", "symbol"]⟩,
    ⟨"ccv_nnc_graph_exec_symbol_for_backward", .by_value, ["graph", "symbol"]⟩,
    ⟨"ccv_nnc_graph_while", .int,
      ["graph", "tensor_arena", "version", "flags", "sources", "source_size",
       "destinations", "destination_size"]⟩ ]

/-- The declaration of the function called `name`, if the header has one. -/
def declaration (name : String) : Option c_decl :=
  public_interface.find? (fun d => d.name == name)

/-- The return type the header declares for `name`. -/
def declared_return (name : String) : Option c_return :=
  (declaration name).map (fun d => d.ret)

/-- The parameter names the header declares for `name`. -/
def declared_params (name : String) : List String :=
  ((declaration name).map (fun d => d.params)).getD []

/-- The header declares return type `int` for `name`.  A status is an `int`, so
only such a function can hand one back through its return value. -/
def returns_status (name : String) : Bool :=
  declared_return name == some c_return.int

/-- The names of the functions the header declares with return type `int`, in
the order of their declarations. -/
def declared_int : List String :=
  (public_interface.filter (fun d => d.ret == c_return.int)).map (fun d => d.name)

/-- The functions whose comment in the header reads "Return non-zero if
cannot ...": lines 237, 282, 287 and 290. -/
def commented_nonzero_on_failure : List String :=
  ["ccv_nnc_graph_exec_concat", "ccv_nnc_graph_exec_symbol_set_hint",
   "ccv_nnc_graph_exec_symbol_concat", "ccv_nnc_graph_exec_symbol_flow"]


/-! ## The symbolic graph -/

/-- Modelled from the spec: the shape descriptor `ccv_nnc_tensor_param_t`, whose
declaration lives in `ccv.h`; only the dimension sizes are kept. -/
structure ccv_nnc_tensor_param_t where
  dim : List Nat
  deriving DecidableEq

/-- The number of elements a tensor of this shape occupies. -/
def tensor_footprint (info : ccv_nnc_tensor_param_t) : Nat := info.dim.prod

/-- Modelled from the spec: the record the graph keeps for one tensor symbol,
its shape descriptor and, for an alias symbol, the symbol whose memory it
references. -/
structure tensor_symbol_info where
  info : ccv_nnc_tensor_param_t
  alias_ref : Option Nat
  deriving DecidableEq

/-- Modelled from the spec: the record the graph keeps for one exec symbol, its
ordered input and output tensor symbols. -/
structure graph_exec_symbol_info where
  inputs : List Nat
  outputs : List Nat
  deriving DecidableEq

/-- Modelled from the spec: the opaque `ccv_nnc_symbolic_graph_t`.  Symbols are
densely numbered by their position (the field `d` of a symbol handle), `edges`
is the dependency relation as producer/consumer pairs, and
`backward_tensor_symbols` maps a forward tensor symbol to its gradient. -/
structure ccv_nnc_symbolic_graph_t where
  tensor_symbols : List tensor_symbol_info
  exec_symbols : List graph_exec_symbol_info
  edges : List (Nat × Nat)
  backward_tensor_symbols : List (Nat × Nat)
  deriving DecidableEq

/-- Modelled from the spec: `ccv_nnc_symbolic_graph_new` creates an empty
symbolic graph. -/
def ccv_nnc_symbolic_graph_new : ccv_nnc_symbolic_graph_t :=
  { tensor_symbols := [], exec_symbols := [], edges := [], backward_tensor_symbols := [] }

/-! ### Reachability over a list of edges -/

/-- One round of propagation: `nodes` together with every successor of a
member of `nodes` that is not yet among them. -/
def expand (edges : List (Nat × Nat)) (nodes : List Nat) : List Nat :=
  nodes ++ ((edges.filter (fun e => decide (e.1 ∈ nodes))).map Prod.snd).filter
    (fun v => decide (v ∉ nodes))

/-- Propagation repeated `fuel` times. -/
def propagate (edges : List (Nat × Nat)) : Nat → List Nat → List Nat
  | 0, nodes => nodes
  | fuel + 1, nodes => propagate edges fuel (expand edges nodes)

/-- The nodes reachable from `roots` along `edges`; one round per edge is
enough to reach the fixed point. -/
def reachable_from (edges : List (Nat × Nat)) (roots : List Nat) : List Nat :=
  propagate edges edges.length roots

/-- The acyclicity check: no edge `(a, b)` has `a` reachable from `b`. -/
def is_acyclic (edges : List (Nat × Nat)) : Bool :=
  edges.all (fun e => decide (e.1 ∉ reachable_from edges [e.2]))

/-! ### Construction operations -/

/-- Modelled from the spec: `ccv_nnc_tensor_symbol` appends a tensor symbol
without storage. -/
def ccv_nnc_tensor_symbol (graph : ccv_nnc_symbolic_graph_t) (info : ccv_nnc_tensor_param_t) :
    ccv_nnc_symbolic_graph_t :=
  { graph with tensor_symbols := graph.tensor_symbols ++ [⟨info, none⟩] }

/-- Modelled from the spec: `ccv_nnc_tensor_symbol_alias` appends a symbol that
references the memory of `tensor_symbol`. -/
def ccv_nnc_tensor_symbol_alias (graph : ccv_nnc_symbolic_graph_t) (tensor_symbol : Nat)
    (info : ccv_nnc_tensor_param_t) : ccv_nnc_symbolic_graph_t :=
  { graph with tensor_symbols := graph.tensor_symbols ++ [⟨info, some tensor_symbol⟩] }

/-- Modelled from the spec: `ccv_nnc_graph_exec_symbol` appends an exec symbol
with its input and output tensor symbols. -/
def ccv_nnc_graph_exec_symbol (graph : ccv_nnc_symbolic_graph_t) (inputs outputs : List Nat) :
    ccv_nnc_symbolic_graph_t :=
  { graph with exec_symbols := graph.exec_symbols ++ [⟨inputs, outputs⟩] }

/-- Modelled from the spec: `ccv_nnc_graph_exec_symbol_concat` forces the edge
`source → destination`.  The edge is merged into the dependency relation when
both symbols exist and the merged relation stays acyclic; otherwise the call
is refused with a non-zero status and the graph is left as it was. -/
def ccv_nnc_graph_exec_symbol_concat (graph : ccv_nnc_symbolic_graph_t)
    (source destination : Nat) : Int × ccv_nnc_symbolic_graph_t :=
  if source < graph.exec_symbols.length ∧ destination < graph.exec_symbols.length ∧
      is_acyclic (graph.edges ++ [(source, destination)]) = true then
    (0, { graph with edges := graph.edges ++ [(source, destination)] })
  else (CCV_NNC_EXEC_INVALID, graph)

/-- Follow alias references for at most `fuel` steps. -/
def alias_base (symbols : List tensor_symbol_info) : Nat → Nat → Nat
  | 0, t => t
  | fuel + 1, t =>
    match symbols[t]? with
    | some ⟨_, some r⟩ => alias_base symbols fuel r
    | _ => t

/-- The non-alias symbol whose storage tensor symbol `t` resolves to. -/
def tensor_base (graph : ccv_nnc_symbolic_graph_t) (t : Nat) : Nat :=
  alias_base graph.tensor_symbols graph.tensor_symbols.length t

/-- The storage-owning symbols read by exec symbol `e`. -/
def exec_inputs (graph : ccv_nnc_symbolic_graph_t) (e : Nat) : List Nat :=
  match graph.exec_symbols[e]? with
  | some x => x.inputs.map (tensor_base graph)
  | none => []

/-- The storage-owning symbols written by exec symbol `e`. -/
def exec_outputs (graph : ccv_nnc_symbolic_graph_t) (e : Nat) : List Nat :=
  match graph.exec_symbols[e]? with
  | some x => x.outputs.map (tensor_base graph)
  | none => []

/-- Modelled from the spec: the edges flow inference derives among `execs`, one
from `a` to `b` whenever an output of `a` is, directly or through an alias, an
input of `b`. -/
def flow_edges (graph : ccv_nnc_symbolic_graph_t) (execs : List Nat) : List (Nat × Nat) :=
  execs.flatMap (fun a =>
    (execs.filter (fun b =>
      decide (a ≠ b) && (exec_outputs graph a).any (fun t => decide (t ∈ exec_inputs graph b)))).map
      (fun b => (a, b)))

/-- Modelled from the spec: `ccv_nnc_graph_exec_symbol_flow` merges the inferred
edges into the dependency relation when every listed symbol exists and the
merged relation stays acyclic; otherwise it returns non-zero and changes
nothing. -/
def ccv_nnc_graph_exec_symbol_flow (graph : ccv_nnc_symbolic_graph_t) (execs : List Nat) :
    Int × ccv_nnc_symbolic_graph_t :=
  if (∀ e ∈ execs, e < graph.exec_symbols.length) ∧
      is_acyclic (graph.edges ++ flow_edges graph execs) = true then
    (0, { graph with edges := graph.edges ++ flow_edges graph execs })
  else (CCV_NNC_EXEC_INVALID, graph)

/-- The construction operations of the symbolic graph. -/
inductive construction_op where
  | tensor_symbol (info : ccv_nnc_tensor_param_t)
  | tensor_symbol_alias (tensor_symbol : Nat) (info : ccv_nnc_tensor_param_t)
  | graph_exec_symbol (inputs outputs : List Nat)
  | concat (source destination : Nat)
  | flow (execs : List Nat)

/-- The graph after one construction operation; a refused operation leaves
the graph as it was. -/
def apply_op (graph : ccv_nnc_symbolic_graph_t) : construction_op → ccv_nnc_symbolic_graph_t
  | .tensor_symbol info => ccv_nnc_tensor_symbol graph info
  | .tensor_symbol_alias t info => ccv_nnc_tensor_symbol_alias graph t info
  | .graph_exec_symbol inputs outputs => ccv_nnc_graph_exec_symbol graph inputs outputs
  | .concat source destination => (ccv_nnc_graph_exec_symbol_concat graph source destination).2
  | .flow execs => (ccv_nnc_graph_exec_symbol_flow graph execs).2

/-- The graph built from the empty graph by a sequence of construction
operations. -/
def build (ops : List construction_op) : ccv_nnc_symbolic_graph_t :=
  ops.foldl apply_op ccv_nnc_symbolic_graph_new

/-- The dependency relation as a relation: `a` must complete before `b`. -/
def depends (edges : List (Nat × Nat)) (a b : Nat) : Prop := (a, b) ∈ edges

/-- No exec symbol precedes itself through one or more edges. -/
def acyclic (edges : List (Nat × Nat)) : Prop :=
  ∀ a, ¬ Relation.TransGen (depends edges) a a

/-- A node set is closed when no edge leaves it. -/
def closed (edges : List (Nat × Nat)) (nodes : List Nat) : Prop :=
  ∀ u v, (u, v) ∈ edges → u ∈ nodes → v ∈ nodes

/-- The number of edges whose target is not yet in the node set. -/
def pending (edges : List (Nat × Nat)) (nodes : List Nat) : Nat :=
  (edges.filter (fun e => decide (e.2 ∉ nodes))).length

/-- The three-symbol chain `t0 → e0 → t1 → e1 → t2` with its inferred edge. -/
def two_step_ops : List construction_op :=
  [.tensor_symbol ⟨[2, 2]⟩, .tensor_symbol ⟨[2, 2]⟩, .tensor_symbol ⟨[2, 2]⟩,
   .graph_exec_symbol [0] [1], .graph_exec_symbol [1] [2], .flow [0, 1]]


/-! ## Compilation and execution -/

/-- The nodes among `0 .. count - 1` that lie on a path from some source to
some destination, both ends included. -/
def span_between (edges : List (Nat × Nat)) (count : Nat) (sources destinations : List Nat) :
    List Nat :=
  (List.range count).filter (fun v =>
    decide (v ∈ reachable_from edges sources) &&
    decide (v ∈ reachable_from (edges.map Prod.swap) destinations))

/-- Node `v` can run next: it has not run and each of its predecessors among
`nodes` has. -/
def is_ready (edges : List (Nat × Nat)) (nodes done : List Nat) (v : Nat) : Bool :=
  decide (v ∉ done) &&
  edges.all (fun e => decide (e.2 = v → e.1 ∈ nodes → e.1 ∈ done))

/-- Repeatedly append the first ready node, at most `fuel` times. -/
def topological_order (edges : List (Nat × Nat)) (nodes : List Nat) : Nat → List Nat → List Nat
  | 0, done => done
  | fuel + 1, done =>
    match nodes.find? (is_ready edges nodes done) with
    | some v => topological_order edges nodes fuel (done ++ [v])
    | none => done

/-- Modelled from the spec: a topological order of `nodes` under `edges`. -/
def schedule (edges : List (Nat × Nat)) (nodes : List Nat) : List Nat :=
  topological_order edges nodes nodes.length []

/-- Exec symbol `e` reads or writes the storage of tensor symbol `t`. -/
def exec_uses (graph : ccv_nnc_symbolic_graph_t) (t e : Nat) : Bool :=
  decide (t ∈ exec_inputs graph e) || decide (t ∈ exec_outputs graph e)

/-- The position in `order` of the first exec symbol using `t`. -/
def first_use (graph : ccv_nnc_symbolic_graph_t) (order : List Nat) (t : Nat) : Nat :=
  order.findIdx (exec_uses graph t)

/-- The position in `order` of the last exec symbol using `t`. -/
def last_use (graph : ccv_nnc_symbolic_graph_t) (order : List Nat) (t : Nat) : Nat :=
  order.length - 1 - order.reverse.findIdx (exec_uses graph t)

/-- The struct `ccv_nnc_tensor_bind_t`: a concrete tensor, named by an
identity, paired with the symbol it is pinned to. -/
structure ccv_nnc_tensor_bind_t where
  tensor : Nat
  symbol : Nat
  deriving DecidableEq

/-- A tensor symbol owns arena storage when it is not an alias, is not bound
to a caller tensor and is used by a scheduled exec symbol. -/
def owns_arena_storage (graph : ccv_nnc_symbolic_graph_t)
    (tensor_binds : List ccv_nnc_tensor_bind_t) (order : List Nat) (t : Nat) : Bool :=
  decide (tensor_base graph t = t) &&
  !(tensor_binds.any (fun b => decide (b.symbol = t))) &&
  order.any (exec_uses graph t)

/-- The tensor symbols to place in the arena, by increasing start of their
live interval. -/
def arena_symbols (graph : ccv_nnc_symbolic_graph_t)
    (tensor_binds : List ccv_nnc_tensor_bind_t) (order : List Nat) : List Nat :=
  List.insertionSort (fun a b => first_use graph order a ≤ first_use graph order b)
    ((List.range graph.tensor_symbols.length).filter (owns_arena_storage graph tensor_binds order))

/-- One physical buffer of the arena: its size and the last schedule position
at which its current occupant is live. -/
structure arena_block where
  size : Nat
  busy_until : Nat
  deriving DecidableEq

/-- Place a tensor of footprint `size` live over `first .. last`: reuse the
first buffer that is large enough and whose occupant is dead before `first`,
or open a new buffer.  Returns the buffers and the index chosen. -/
def place (blocks : List arena_block) (size first last : Nat) : List arena_block × Nat :=
  let i := blocks.findIdx (fun b => decide (size ≤ b.size) && decide (b.busy_until < first))
  if i < blocks.length then
    (blocks.modify (fun b => { b with busy_until := last }) i, i)
  else (blocks ++ [⟨size, last⟩], blocks.length)

/-- The footprint of tensor symbol `t`. -/
def symbol_footprint (graph : ccv_nnc_symbolic_graph_t) (t : Nat) : Nat :=
  match graph.tensor_symbols[t]? with
  | some s => tensor_footprint s.info
  | none => 0

/-- Modelled from the spec: the arena plan.  Tensor symbols are placed in the
order of `symbols`; the result is the list of buffers and the buffer index
assigned to each symbol. -/
def allocate (graph : ccv_nnc_symbolic_graph_t) (order symbols : List Nat) :
    List arena_block × List (Nat × Nat) :=
  symbols.foldl
    (fun st t =>
      let r := place st.1 (symbol_footprint graph t) (first_use graph order t)
        (last_use graph order t)
      (r.1, st.2 ++ [(t, r.2)]))
    ([], [])

/-- Where a tensor symbol's data lives after compilation. -/
inductive tensor_storage where
  | arena (block : Nat)
  | bound (tensor : Nat)
  deriving DecidableEq

/-- Modelled from the spec: the opaque `ccv_nnc_tensor_arena_t`, the sizes of
its physical buffers and the symbol to storage lookup table. -/
structure ccv_nnc_tensor_arena_t where
  buffers : List Nat
  vt_tensors : List (Option tensor_storage)
  deriving DecidableEq

/-- Modelled from the spec: a concrete node, the exec symbol whose command it
carries and its resolved tensors. -/
structure graph_exec_info where
  symbol : Nat
  inputs : List (Option tensor_storage)
  outputs : List (Option tensor_storage)
  deriving DecidableEq

/-- Modelled from the spec: the opaque `ccv_nnc_graph_t`, its nodes and the
dependency edges between node indices. -/
structure ccv_nnc_graph_t where
  exec_info : List graph_exec_info
  edges : List (Nat × Nat)
  deriving DecidableEq

/-- Modelled from the spec: the opaque `ccv_nnc_graph_exec_arena_t`, the exec
symbol to node lookup table. -/
structure ccv_nnc_graph_exec_arena_t where
  graph_execs : List (Option Nat)
  deriving DecidableEq

/-- Modelled from the spec: `ccv_nnc_graph_exec_from_symbol` looks an exec
symbol up in the arena; `none` stands for a handle with `CCV_NO_GRAPH_EXEC`. -/
def ccv_nnc_graph_exec_from_symbol (graph_exec_arena : ccv_nnc_graph_exec_arena_t)
    (symbol : Nat) : Option Nat :=
  graph_exec_arena.graph_execs.getD symbol none

/-- The storage tensor symbol `t` resolves to: the caller tensor its base is
bound to, else the arena buffer assigned to its base. -/
def resolve_storage (graph : ccv_nnc_symbolic_graph_t)
    (tensor_binds : List ccv_nnc_tensor_bind_t) (assignment : List (Nat × Nat)) (t : Nat) :
    Option tensor_storage :=
  match tensor_binds.find? (fun b => decide (b.symbol = tensor_base graph t)) with
  | some b => some (tensor_storage.bound b.tensor)
  | none =>
    match assignment.find? (fun a => decide (a.1 = tensor_base graph t)) with
    | some a => some (tensor_storage.arena a.2)
    | none => none

/-- The exec symbols a compilation schedules, in execution order. -/
def compile_order (graph : ccv_nnc_symbolic_graph_t) (sources destinations : List Nat) :
    List Nat :=
  schedule graph.edges (span_between graph.edges graph.exec_symbols.length sources destinations)

/-- Modelled from the spec: `ccv_nnc_symbolic_graph_compile`.  The three
results stand for `graph_ref`, `tensor_arena_ref` and `graph_exec_arena_ref`.
The exec symbols between sources and destinations are put in topological
order, live intervals are taken over that order, buffers are reused between
tensors whose intervals do not overlap, and one concrete node is made per
scheduled exec symbol.  In-place binding of an output to its input, which
the design only permits, is not applied. -/
def ccv_nnc_symbolic_graph_compile (graph : ccv_nnc_symbolic_graph_t)
    (tensor_binds : List ccv_nnc_tensor_bind_t) (sources destinations : List Nat) :
    ccv_nnc_graph_t × ccv_nnc_tensor_arena_t × ccv_nnc_graph_exec_arena_t :=
  let order := compile_order graph sources destinations
  let plan := allocate graph order (arena_symbols graph tensor_binds order)
  let storage := resolve_storage graph tensor_binds plan.2
  ( { exec_info := order.map (fun e =>
        { symbol := e
          inputs := ((graph.exec_symbols.getD e ⟨[], []⟩).inputs).map storage
          outputs := ((graph.exec_symbols.getD e ⟨[], []⟩).outputs).map storage })
      edges := (graph.edges.filter (fun e => decide (e.1 ∈ order) && decide (e.2 ∈ order))).map
        (fun e => (order.indexOf e.1, order.indexOf e.2)) },
    { buffers := plan.1.map (fun b => b.size)
      vt_tensors := (List.range graph.tensor_symbols.length).map (fun t =>
        if order.any (exec_uses graph (tensor_base graph t)) then storage t else none) },
    { graph_execs := (List.range graph.exec_symbols.length).map (fun e =>
        if e ∈ order then some (order.indexOf e) else none) } )

/-- Modelled from the spec: `ccv_nnc_graph_run` executes the nodes between the
given sources and destinations in dependency order; the result is the
sequence of node indices whose kernels were called. -/
def ccv_nnc_graph_run (graph : ccv_nnc_graph_t) (sources destinations : List Nat) : List Nat :=
  schedule graph.edges (span_between graph.edges graph.exec_info.length sources destinations)

/-- Node `v` lies on a dependency path from some source to some destination. -/
def on_span (edges : List (Nat × Nat)) (sources destinations : List Nat) (v : Nat) : Prop :=
  ∃ s ∈ sources, ∃ d ∈ destinations,
    Relation.ReflTransGen (depends edges) s v ∧ Relation.ReflTransGen (depends edges) v d

/-- Four exec symbols `A = 0`, `B = 1`, `C = 2`, `D = 3`: `A` feeds `D` and,
unrelated to them, `B` feeds `C`. -/
def two_branch_ops : List construction_op :=
  [.tensor_symbol ⟨[2]⟩, .tensor_symbol ⟨[2]⟩, .tensor_symbol ⟨[2]⟩, .tensor_symbol ⟨[2]⟩,
   .tensor_symbol ⟨[2]⟩, .tensor_symbol ⟨[2]⟩,
   .graph_exec_symbol [0] [1], .graph_exec_symbol [3] [4], .graph_exec_symbol [4] [5],
   .graph_exec_symbol [1] [2], .flow [0, 1, 2, 3]]

/-- The construction of a three-step forward chain. -/
def three_step_ops : List construction_op :=
  [.tensor_symbol ⟨[2, 2]⟩, .tensor_symbol ⟨[2, 2]⟩, .tensor_symbol ⟨[2, 2]⟩,
   .tensor_symbol ⟨[2, 2]⟩,
   .graph_exec_symbol [0] [1], .graph_exec_symbol [1] [2], .graph_exec_symbol [2] [3],
   .flow [0, 1, 2]]

/-- The data dependencies between tensor symbols that the exec symbols
`execs` induce: each input of an exec symbol flows to each of its outputs. -/
def tensor_flow (graph : ccv_nnc_symbolic_graph_t) (execs : List Nat) : List (Nat × Nat) :=
  execs.flatMap (fun e =>
    (exec_inputs graph e).flatMap (fun i => (exec_outputs graph e).map (fun o => (i, o))))

/-- Modelled from the spec: the forward tensor symbols that receive a gradient
symbol, those lying within the forward span on a path from a
with-respect-to symbol to an objective symbol. -/
def differentiated_symbols (graph : ccv_nnc_symbolic_graph_t)
    (sources destinations f_symbols wrt_symbols : List Nat) : List Nat :=
  (List.range graph.tensor_symbols.length).filter (fun t =>
    decide (t ∈ reachable_from (tensor_flow graph (compile_order graph sources destinations))
      (wrt_symbols.map (tensor_base graph))) &&
    decide (t ∈ reachable_from
      ((tensor_flow graph (compile_order graph sources destinations)).map Prod.swap)
      (f_symbols.map (tensor_base graph))))

/-- Modelled from the spec: `ccv_nnc_symbolic_graph_backward`, as far as tensor
symbols go.  The same graph object is extended with one fresh gradient tensor
symbol per differentiated forward symbol, and the forward to gradient mapping
is reset to the pairs of this call.  The gradient exec symbols, whose
operation kinds the header leaves to the backends, are not represented. -/
def ccv_nnc_symbolic_graph_backward (graph : ccv_nnc_symbolic_graph_t)
    (sources destinations f_symbols wrt_symbols : List Nat) : ccv_nnc_symbolic_graph_t :=
  { graph with
    tensor_symbols := graph.tensor_symbols ++
      (differentiated_symbols graph sources destinations f_symbols wrt_symbols).map
        (fun t => ⟨(graph.tensor_symbols.getD t ⟨⟨[]⟩, none⟩).info, none⟩)
    backward_tensor_symbols :=
      (differentiated_symbols graph sources destinations f_symbols wrt_symbols).zip
        (List.range' graph.tensor_symbols.length
          (differentiated_symbols graph sources destinations f_symbols wrt_symbols).length) }

/-- Modelled from the spec: `ccv_nnc_tensor_symbol_for_backward` returns the
gradient symbol recorded for a forward symbol, if there is one. -/
def ccv_nnc_tensor_symbol_for_backward (graph : ccv_nnc_symbolic_graph_t) (symbol : Nat) :
    Option Nat :=
  (graph.backward_tensor_symbols.find? (fun p => decide (p.1 = symbol))).map Prod.snd

/-- The graph after `ccv_nnc_symbolic_graph_backward` has been called twice
with the same arguments. -/
def backward_twice (graph : ccv_nnc_symbolic_graph_t)
    (sources destinations f_symbols wrt_symbols : List Nat) : ccv_nnc_symbolic_graph_t :=
  ccv_nnc_symbolic_graph_backward
    (ccv_nnc_symbolic_graph_backward graph sources destinations f_symbols wrt_symbols)
    sources destinations f_symbols wrt_symbols

/-- The enumerators of the first `enum` of the header, in declaration order.
The first is given the value `0` and every other one the value of its
predecessor plus one, so the code of an enumerator is its position here. -/
def compute_kinds : List String :=
  [ "CCV_NNC_COMPUTE_CUSTOM",
    "CCV_NNC_COMPUTE_NOOP",
    "CCV_NNC_COMPUTE_CONVOLUTION_FORWARD",
    "CCV_NNC_COMPUTE_CONVOLUTION_BACKWARD",
    "CCV_NNC_COMPUTE_MAX_POOL_FORWARD",
    "CCV_NNC_COMPUTE_MAX_POOL_BACKWARD",
    "CCV_NNC_COMPUTE_AVERAGE_POOL_FORWARD",
    "CCV_NNC_COMPUTE_AVERAGE_POOL_BACKWARD",
    "CCV_NNC_COMPUTE_SOFTMAX_FORWARD",
    "CCV_NNC_COMPUTE_SOFTMAX_BACKWARD",
    "CCV_NNC_COMPUTE_BATCH_NORM_FORWARD",
    "CCV_NNC_COMPUTE_BATCH_NORM_BACKWARD",
    "CCV_NNC_COMPUTE_RELU_FORWARD",
    "CCV_NNC_COMPUTE_RELU_BACKWARD",
    "CCV_NNC_COMPUTE_AXPY_FORWARD",
    "CCV_NNC_COMPUTE_AXPY_BACKWARD",
    "CCV_NNC_COMPUTE_GEMM_FORWARD",
    "CCV_NNC_COMPUTE_GEMM_BACKWARD",
    "CCV_NNC_COMPUTE_EWSUM_FORWARD",
    "CCV_NNC_COMPUTE_EWSUM_BACKWARD",
    "CCV_NNC_COMPUTE_EWPROD_FORWARD",
    "CCV_NNC_COMPUTE_EWPROD_BACKWARD",
    "CCV_NNC_COMPUTE_EWDIV_FORWARD",
    "CCV_NNC_COMPUTE_EWDIV_BACKWARD",
    "CCV_NNC_COMPUTE_EWEXP_FORWARD",
    "CCV_NNC_COMPUTE_EWEXP_BACKWARD",
    "CCV_NNC_COMPUTE_EWLOG_FORWARD",
    "CCV_NNC_COMPUTE_EWLOG_BACKWARD",
    "CCV_NNC_COMPUTE_SET_FORWARD",
    "CCV_NNC_COMPUTE_SET_BACKWARD",
    "CCV_NNC_COMPUTE_DATA_TRANSFER_FORWARD",
    "CCV_NNC_COMPUTE_DATA_TRANSFER_BACKWARD",
    "CCV_NNC_COMPUTE_FORMAT_TRANSFORM_FORWARD",
    "CCV_NNC_COMPUTE_FORMAT_TRANSFORM_BACKWARD",
    "CCV_NNC_COMPUTE_COUNT" ]

/-- The code the enumeration gives to the enumerator called `name`. -/
def compute_code (name : String) : Nat := compute_kinds.indexOf name

/-- Enumerator `CCV_NNC_COMPUTE_CUSTOM`. -/
def CCV_NNC_COMPUTE_CUSTOM : Nat := compute_code "CCV_NNC_COMPUTE_CUSTOM"
/-- Enumerator `CCV_NNC_COMPUTE_NOOP`. -/
def CCV_NNC_COMPUTE_NOOP : Nat := compute_code "CCV_NNC_COMPUTE_NOOP"
/-- Enumerator `CCV_NNC_COMPUTE_COUNT`. -/
def CCV_NNC_COMPUTE_COUNT : Nat := compute_code "CCV_NNC_COMPUTE_COUNT"

/-- The name of the enumerator with code `k`. -/
def compute_name (k : Nat) : String := compute_kinds.getD k ""

/-- Code `k` is a forward kind: its enumerator is named `..._FORWARD`. -/
def is_forward_kind (k : Nat) : Bool :=
  "_FORWARD".data.isSuffixOf (compute_name k).data

/-- Code `k` is a backward kind: its enumerator is named `..._BACKWARD`. -/
def is_backward_kind (k : Nat) : Bool :=
  "_BACKWARD".data.isSuffixOf (compute_name k).data

/-- The operation an enumerator stands for: its name without the direction. -/
def kind_stem (k : Nat) : List Char :=
  if is_forward_kind k then (compute_name k).data.take ((compute_name k).length - 8)
  else if is_backward_kind k then (compute_name k).data.take ((compute_name k).length - 9)
  else (compute_name k).data

/-- The code of the backward kind of forward kind `k`: the enumerator named
after the same operation with `_BACKWARD`. -/
def backward_kind_of (k : Nat) : Nat :=
  compute_code (String.mk (kind_stem k ++ "_BACKWARD".data))

/-- The codes of the forward kinds. -/
def forward_kinds : List Nat := (List.range compute_kinds.length).filter is_forward_kind

/-- The codes of the backward kinds. -/
def backward_kinds : List Nat := (List.range compute_kinds.length).filter is_backward_kind


/-! ## Reachability -/

theorem mem_expand {edges : List (Nat × Nat)} {nodes : List Nat} {v : Nat} :
    v ∈ expand edges nodes ↔ v ∈ nodes ∨ ∃ u ∈ nodes, (u, v) ∈ edges := by
  unfold expand
  simp only [List.mem_append, List.mem_filter, List.mem_map, decide_eq_true_eq, Prod.exists]
  constructor
  · rintro (h | ⟨⟨a, b, ⟨hab, ha⟩, rfl⟩, -⟩)
    · exact Or.inl h
    · exact Or.inr ⟨a, ha, hab⟩
  · rintro (h | ⟨u, hu, huv⟩)
    · exact Or.inl h
    · by_cases hv : v ∈ nodes
      · exact Or.inl hv
      · exact Or.inr ⟨⟨u, v, ⟨huv, hu⟩, rfl⟩, hv⟩

theorem subset_propagate (edges : List (Nat × Nat)) (k : Nat) (nodes : List Nat) :
    nodes ⊆ propagate edges k nodes := by
  induction k generalizing nodes with
  | zero => exact fun _ h => h
  | succ k ih =>
    intro v hv
    exact ih (expand edges nodes) (mem_expand.2 (Or.inl hv))

theorem propagate_sound (edges : List (Nat × Nat)) (k : Nat) (nodes : List Nat) (v : Nat)
    (hv : v ∈ propagate edges k nodes) :
    ∃ u ∈ nodes, Relation.ReflTransGen (depends edges) u v := by
  induction k generalizing nodes with
  | zero => exact ⟨v, hv, Relation.ReflTransGen.refl⟩
  | succ k ih =>
    obtain ⟨w, hw, hwv⟩ := ih (expand edges nodes) hv
    rcases mem_expand.1 hw with h | ⟨u, hu, huw⟩
    · exact ⟨w, h, hwv⟩
    · exact ⟨u, hu, Relation.ReflTransGen.head huw hwv⟩

theorem expand_of_closed {edges : List (Nat × Nat)} {nodes : List Nat}
    (h : closed edges nodes) : expand edges nodes = nodes := by
  unfold expand
  have : ((edges.filter (fun e => decide (e.1 ∈ nodes))).map Prod.snd).filter
      (fun v => decide (v ∉ nodes)) = [] := by
    rw [List.filter_eq_nil_iff]
    intro v hv
    simp only [List.mem_map, List.mem_filter, decide_eq_true_eq, Prod.exists] at hv
    obtain ⟨a, b, ⟨hab, ha⟩, rfl⟩ := hv
    simpa using h a b hab ha
  rw [this, List.append_nil]

theorem propagate_of_closed {edges : List (Nat × Nat)} (k : Nat) {nodes : List Nat}
    (h : closed edges nodes) : propagate edges k nodes = nodes := by
  induction k with
  | zero => rfl
  | succ k ih => simp only [propagate, expand_of_closed h, ih]

theorem filter_length_lt {α : Type} (p q : α → Bool) (l : List α)
    (hqp : ∀ x, q x = true → p x = true) (x : α) (hx : x ∈ l) (hp : p x = true)
    (hq : q x = false) : (l.filter q).length < (l.filter p).length := by
  induction l with
  | nil => cases hx
  | cons a l ih =>
    have hle : (l.filter q).length ≤ (l.filter p).length := by
      apply List.Sublist.length_le
      exact List.monotone_filter_right l hqp
    rcases List.mem_cons.1 hx with rfl | hx
    · simp only [List.filter_cons, hp, hq, if_true, List.length_cons]
      simp
      omega
    · have := ih hx
      by_cases hqa : q a = true
      · simp only [List.filter_cons, hqa, hqp a hqa, if_true, List.length_cons]
        omega
      · by_cases hpa : p a = true
        · simp only [List.filter_cons, hqa, hpa, if_true, List.length_cons]
          simp
          omega
        · simp only [List.filter_cons, hqa, hpa]
          simpa using this

theorem pending_expand_lt {edges : List (Nat × Nat)} {nodes : List Nat}
    (h : ¬ closed edges nodes) : pending edges (expand edges nodes) < pending edges nodes := by
  unfold closed at h
  push_neg at h
  obtain ⟨u, v, huv, hu, hv⟩ := h
  unfold pending
  apply filter_length_lt _ _ edges _ (u, v) huv
  · simpa using hv
  · simp only [decide_eq_false_iff_not, not_not]
    exact mem_expand.2 (Or.inr ⟨u, hu, huv⟩)
  · intro e he
    simp only [decide_eq_true_eq] at he ⊢
    exact fun hmem => he (mem_expand.2 (Or.inl hmem))

theorem closed_propagate (edges : List (Nat × Nat)) (k : Nat) (nodes : List Nat)
    (h : pending edges nodes ≤ k) : closed edges (propagate edges k nodes) := by
  induction k generalizing nodes with
  | zero =>
    intro u v huv _
    have h0 : pending edges nodes = 0 := Nat.le_zero.1 h
    unfold pending at h0
    have hnil := List.length_eq_zero.1 h0
    rw [List.filter_eq_nil_iff] at hnil
    simpa using hnil (u, v) huv
  | succ k ih =>
    by_cases hc : closed edges nodes
    · rw [propagate_of_closed _ hc]
      exact hc
    · have := pending_expand_lt hc
      exact ih (expand edges nodes) (by omega)

theorem mem_reachable_from {edges : List (Nat × Nat)} {roots : List Nat} {v : Nat} :
    v ∈ reachable_from edges roots ↔
      ∃ u ∈ roots, Relation.ReflTransGen (depends edges) u v := by
  constructor
  · exact propagate_sound edges _ roots v
  · rintro ⟨u, hu, huv⟩
    have hc : closed edges (reachable_from edges roots) :=
      closed_propagate edges _ roots (List.length_filter_le _ _)
    have hu' : u ∈ reachable_from edges roots := subset_propagate edges _ roots hu
    induction huv with
    | refl => exact hu'
    | tail _ hbc ih => exact hc _ _ hbc ih

theorem is_acyclic_iff (edges : List (Nat × Nat)) : is_acyclic edges = true ↔ acyclic edges := by
  unfold is_acyclic acyclic
  simp only [List.all_eq_true, decide_eq_true_eq, mem_reachable_from, List.mem_singleton,
    exists_eq_left, Prod.forall]
  constructor
  · intro h a ha
    obtain ⟨b, hab, hba⟩ := Relation.TransGen.head'_iff.1 ha
    exact h a b hab hba
  · intro h a b hab hba
    exact h a (Relation.TransGen.head' hab hba)

/-! ## Acyclicity of the dependency relation -/

theorem concat_edges_acyclic (graph : ccv_nnc_symbolic_graph_t) (source destination : Nat)
    (h : acyclic graph.edges) :
    acyclic (ccv_nnc_graph_exec_symbol_concat graph source destination).2.edges := by
  unfold ccv_nnc_graph_exec_symbol_concat
  split
  · next hc => exact (is_acyclic_iff _).1 hc.2.2
  · exact h

theorem flow_edges_acyclic (graph : ccv_nnc_symbolic_graph_t) (execs : List Nat)
    (h : acyclic graph.edges) :
    acyclic (ccv_nnc_graph_exec_symbol_flow graph execs).2.edges := by
  unfold ccv_nnc_graph_exec_symbol_flow
  split
  · next hc => exact (is_acyclic_iff _).1 hc.2
  · exact h

theorem apply_op_acyclic (graph : ccv_nnc_symbolic_graph_t) (op : construction_op)
    (h : acyclic graph.edges) : acyclic (apply_op graph op).edges := by
  cases op with
  | tensor_symbol info => exact h
  | tensor_symbol_alias t info => exact h
  | graph_exec_symbol inputs outputs => exact h
  | concat source destination => exact concat_edges_acyclic graph source destination h
  | flow execs => exact flow_edges_acyclic graph execs h

theorem foldl_apply_op_acyclic (ops : List construction_op) (graph : ccv_nnc_symbolic_graph_t)
    (h : acyclic graph.edges) : acyclic (ops.foldl apply_op graph).edges := by
  induction ops generalizing graph with
  | nil => exact h
  | cons op ops ih => exact ih (apply_op graph op) (apply_op_acyclic graph op h)

theorem acyclic_nil : acyclic [] := by
  intro a ha
  obtain ⟨b, hab, -⟩ := Relation.TransGen.head'_iff.1 ha
  cases hab

theorem build_acyclic (ops : List construction_op) : acyclic (build ops).edges :=
  foldl_apply_op_acyclic ops _ acyclic_nil

theorem concat_refused_of_path (graph : ccv_nnc_symbolic_graph_t) (source destination : Nat)
    (h : Relation.ReflTransGen (depends graph.edges) destination source) :
    ccv_nnc_graph_exec_symbol_concat graph source destination = (CCV_NNC_EXEC_INVALID, graph) := by
  have hcyc : ¬ acyclic (graph.edges ++ [(source, destination)]) := by
    intro hac
    apply hac source
    refine Relation.TransGen.head' (b := destination) ?_ ?_
    · show (source, destination) ∈ graph.edges ++ [(source, destination)]
      simp
    · refine Relation.ReflTransGen.mono ?_ h
      intro a b hab
      exact List.mem_append_left _ hab
  unfold ccv_nnc_graph_exec_symbol_concat
  rw [if_neg]
  rintro ⟨-, -, hc⟩
  exact hcyc ((is_acyclic_iff _).1 hc)

/-- C1: every graph built from the empty graph by the construction operations
has an acyclic dependency relation, and a manual concatenation whose edge would
close a cycle (its destination already precedes or equals its source) returns
a non-zero status and leaves the graph, hence the relation, unchanged. -/
theorem dependency_relation_acyclic (ops : List construction_op) :
    acyclic (build ops).edges ∧
    ∀ source destination : Nat,
      Relation.ReflTransGen (depends (build ops).edges) destination source →
      (ccv_nnc_graph_exec_symbol_concat (build ops) source destination).1 ≠ 0 ∧
      (ccv_nnc_graph_exec_symbol_concat (build ops) source destination).2 = build ops := by
  refine ⟨build_acyclic ops, ?_⟩
  intro source destination h
  rw [concat_refused_of_path _ _ _ h]
  exact ⟨by simp [CCV_NNC_EXEC_INVALID], rfl⟩

theorem dependency_relation_acyclic_witness :
    acyclic (build two_step_ops).edges ∧
    (ccv_nnc_graph_exec_symbol_concat (build two_step_ops) 1 0).1 ≠ 0 ∧
    (ccv_nnc_graph_exec_symbol_concat (build two_step_ops) 1 0).2 = build two_step_ops :=
  ⟨(dependency_relation_acyclic two_step_ops).1,
   (dependency_relation_acyclic two_step_ops).2 1 0
     (Relation.ReflTransGen.single (show (0, 1) ∈ (build two_step_ops).edges by decide))⟩

/-! ## The compiled span -/

theorem depends_swap (edges : List (Nat × Nat)) (a b : Nat) :
    depends (edges.map Prod.swap) a b ↔ depends edges b a := by
  unfold depends
  simp only [List.mem_map, Prod.exists, Prod.swap_prod_mk, Prod.mk.injEq]
  constructor
  · rintro ⟨x, y, h, rfl, rfl⟩
    exact h
  · intro h
    exact ⟨b, a, h, rfl, rfl⟩

theorem reaches_swap (edges : List (Nat × Nat)) (a b : Nat) :
    Relation.ReflTransGen (depends (edges.map Prod.swap)) a b ↔
      Relation.ReflTransGen (depends edges) b a := by
  rw [← Relation.reflTransGen_swap]
  constructor <;> intro h <;> refine Relation.ReflTransGen.mono ?_ h <;> intro x y hxy
  · exact (depends_swap edges y x).1 hxy
  · exact (depends_swap edges y x).2 hxy

theorem mem_span_between {edges : List (Nat × Nat)} {count : Nat}
    {sources destinations : List Nat} {v : Nat} :
    v ∈ span_between edges count sources destinations ↔
      v < count ∧ on_span edges sources destinations v := by
  unfold span_between on_span
  simp only [List.mem_filter, List.mem_range, Bool.and_eq_true, decide_eq_true_eq,
    mem_reachable_from, reaches_swap]
  constructor
  · rintro ⟨hv, ⟨s, hs, hsv⟩, ⟨d, hd, hvd⟩⟩
    exact ⟨hv, s, hs, d, hd, hsv, hvd⟩
  · rintro ⟨hv, s, hs, d, hd, hsv, hvd⟩
    exact ⟨hv, ⟨s, hs, hsv⟩, ⟨d, hd, hvd⟩⟩

theorem span_between_nodup (edges : List (Nat × Nat)) (count : Nat)
    (sources destinations : List Nat) :
    (span_between edges count sources destinations).Nodup :=
  (List.nodup_range count).filter _

theorem is_ready_iff {edges : List (Nat × Nat)} {nodes done : List Nat} {v : Nat} :
    is_ready edges nodes done v = true ↔
      v ∉ done ∧ ∀ u, depends edges u v → u ∈ nodes → u ∈ done := by
  unfold is_ready depends
  simp only [Bool.and_eq_true, decide_eq_true_eq, List.all_eq_true, Prod.forall]
  constructor
  · rintro ⟨h1, h2⟩
    exact ⟨h1, fun u hu => h2 u v hu rfl⟩
  · rintro ⟨h1, h2⟩
    refine ⟨h1, ?_⟩
    rintro a b hab rfl
    exact h2 a hab

theorem topological_order_subset (edges : List (Nat × Nat)) (nodes : List Nat) (fuel : Nat)
    (done : List Nat) (h : done ⊆ nodes) : topological_order edges nodes fuel done ⊆ nodes := by
  induction fuel generalizing done with
  | zero => exact h
  | succ fuel ih =>
    unfold topological_order
    split
    · next v hv =>
      apply ih
      intro x hx
      rcases List.mem_append.1 hx with hx | hx
      · exact h hx
      · rw [List.mem_singleton.1 hx]
        exact List.mem_of_find?_eq_some hv
    · exact h

theorem exists_ready (edges : List (Nat × Nat)) (nodes done : List Nat)
    (hac : acyclic edges) (v : Nat) (hv : v ∈ nodes) (hvd : v ∉ done) :
    ∃ w, nodes.find? (is_ready edges nodes done) = some w := by
  let waiting := nodes.filter (fun x => decide (x ∉ done))
  let r : {x // x ∈ waiting} → {x // x ∈ waiting} → Prop :=
    fun a b => Relation.TransGen (depends edges) a.1 b.1
  haveI : IsTrans {x // x ∈ waiting} r := ⟨fun _ _ _ hab hbc => Relation.TransGen.trans hab hbc⟩
  haveI : IsIrrefl {x // x ∈ waiting} r := ⟨fun a ha => hac a.1 ha⟩
  have wf : WellFounded r := Finite.wellFounded_of_trans_of_irrefl r
  have hvw : v ∈ waiting := by
    simp only [waiting, List.mem_filter, decide_eq_true_eq]
    exact ⟨hv, hvd⟩
  obtain ⟨m, -, hmin⟩ := wf.has_min Set.univ ⟨⟨v, hvw⟩, Set.mem_univ _⟩
  have hm := m.2
  simp only [waiting, List.mem_filter, decide_eq_true_eq] at hm
  have hready : is_ready edges nodes done m.1 = true := by
    rw [is_ready_iff]
    refine ⟨hm.2, ?_⟩
    intro u hu hun
    by_contra hud
    have huw : u ∈ waiting := by
      simp only [waiting, List.mem_filter, decide_eq_true_eq]
      exact ⟨hun, hud⟩
    exact hmin ⟨u, huw⟩ (Set.mem_univ _) (Relation.TransGen.single hu)
  cases hfind : nodes.find? (is_ready edges nodes done) with
  | some w => exact ⟨w, rfl⟩
  | none =>
    rw [List.find?_eq_none] at hfind
    exact absurd hready (hfind m.1 hm.1)

theorem subset_of_nodup_of_length_le {l₁ l₂ : List Nat} (hn : l₁.Nodup) (hs : l₁ ⊆ l₂)
    (hl : l₂.length ≤ l₁.length) : l₂ ⊆ l₁ :=
  ((List.subperm_of_subset hn hs).perm_of_length_le hl).symm.subset

theorem topological_order_complete (edges : List (Nat × Nat)) (nodes : List Nat)
    (hac : acyclic edges) (fuel : Nat) (done : List Nat) (hs : done ⊆ nodes)
    (hn : done.Nodup) (hl : nodes.length ≤ done.length + fuel) :
    nodes ⊆ topological_order edges nodes fuel done := by
  induction fuel generalizing done with
  | zero => exact subset_of_nodup_of_length_le hn hs (by simpa using hl)
  | succ fuel ih =>
    unfold topological_order
    split
    · next v hv =>
      have hvn : v ∈ nodes := List.mem_of_find?_eq_some hv
      have hvd : v ∉ done := (is_ready_iff.1 (List.find?_some hv)).1
      apply ih
      · intro x hx
        rcases List.mem_append.1 hx with hx | hx
        · exact hs hx
        · rw [List.mem_singleton.1 hx]
          exact hvn
      · rw [List.nodup_append]
        refine ⟨hn, List.nodup_singleton v, ?_⟩
        intro a ha hb
        rw [List.mem_singleton.1 hb] at ha
        exact hvd ha
      · simp only [List.length_append, List.length_singleton]
        omega
    · next hnone =>
      intro x hx
      by_contra hxd
      obtain ⟨w, hw⟩ := exists_ready edges nodes done hac x hx hxd
      rw [hw] at hnone
      cases hnone

theorem mem_schedule_of_acyclic {edges : List (Nat × Nat)} {nodes : List Nat}
    (hac : acyclic edges) {v : Nat} : v ∈ schedule edges nodes ↔ v ∈ nodes := by
  constructor
  · exact fun h => topological_order_subset edges nodes _ [] (List.nil_subset _) h
  · exact fun h => topological_order_complete edges nodes hac _ [] (List.nil_subset _)
      List.nodup_nil (by simp) h

theorem schedule_subset (edges : List (Nat × Nat)) (nodes : List Nat) :
    schedule edges nodes ⊆ nodes :=
  topological_order_subset edges nodes _ [] (List.nil_subset _)

theorem mem_compile_order {graph : ccv_nnc_symbolic_graph_t} (hac : acyclic graph.edges)
    {sources destinations : List Nat} {e : Nat} :
    e ∈ compile_order graph sources destinations ↔
      e < graph.exec_symbols.length ∧ on_span graph.edges sources destinations e := by
  unfold compile_order
  rw [mem_schedule_of_acyclic hac, mem_span_between]

theorem compile_exec_info (graph : ccv_nnc_symbolic_graph_t)
    (tensor_binds : List ccv_nnc_tensor_bind_t) (sources destinations : List Nat) :
    (ccv_nnc_symbolic_graph_compile graph tensor_binds sources destinations).1.exec_info.map
      (fun x => x.symbol) = compile_order graph sources destinations := by
  simp [ccv_nnc_symbolic_graph_compile, Function.comp_def]

theorem compile_graph_execs (graph : ccv_nnc_symbolic_graph_t)
    (tensor_binds : List ccv_nnc_tensor_bind_t) (sources destinations : List Nat) (e : Nat) :
    (ccv_nnc_graph_exec_from_symbol
      (ccv_nnc_symbolic_graph_compile graph tensor_binds sources destinations).2.2 e).isSome ↔
      e < graph.exec_symbols.length ∧ e ∈ compile_order graph sources destinations := by
  unfold ccv_nnc_graph_exec_from_symbol
  simp only [ccv_nnc_symbolic_graph_compile]
  by_cases he : e < graph.exec_symbols.length
  · rw [List.getD_eq_getElem _ _ (by simpa using he)]
    by_cases ho : e ∈ compile_order graph sources destinations <;> simp [he, ho]
  · rw [List.getD_eq_default _ _ (by simpa using he)]
    simp [he]

theorem run_subset_nodes (graph : ccv_nnc_graph_t) (sources destinations : List Nat) (n : Nat)
    (h : n ∈ ccv_nnc_graph_run graph sources destinations) : n < graph.exec_info.length :=
  (mem_span_between.1 (schedule_subset _ _ h)).1

/-- C4: for a graph with an acyclic dependency relation, the compiled graph has
a concrete node for exec symbol `e`, and the exec arena resolves `e`, exactly
when `e` is an exec symbol on a dependency path from some source to some
destination; when `e` is off the span, every node that any run of the compiled
graph executes carries another exec symbol. -/
theorem compile_keeps_exactly_the_span (graph : ccv_nnc_symbolic_graph_t)
    (tensor_binds : List ccv_nnc_tensor_bind_t) (sources destinations : List Nat)
    (hac : acyclic graph.edges) (e : Nat) :
    ((∃ x ∈ (ccv_nnc_symbolic_graph_compile graph tensor_binds sources destinations).1.exec_info,
        x.symbol = e) ↔
      e < graph.exec_symbols.length ∧ on_span graph.edges sources destinations e) ∧
    ((ccv_nnc_graph_exec_from_symbol
        (ccv_nnc_symbolic_graph_compile graph tensor_binds sources destinations).2.2 e).isSome ↔
      e < graph.exec_symbols.length ∧ on_span graph.edges sources destinations e) ∧
    (¬ on_span graph.edges sources destinations e →
      ∀ run_sources run_destinations : List Nat,
        ∀ n ∈ ccv_nnc_graph_run
            (ccv_nnc_symbolic_graph_compile graph tensor_binds sources destinations).1
            run_sources run_destinations,
          ∃ x, (ccv_nnc_symbolic_graph_compile graph tensor_binds sources
              destinations).1.exec_info[n]? = some x ∧ x.symbol ≠ e) := by
  have hnode : ∀ x ∈ (ccv_nnc_symbolic_graph_compile graph tensor_binds sources
      destinations).1.exec_info, x.symbol ∈ compile_order graph sources destinations := by
    intro x hx
    rw [← compile_exec_info graph tensor_binds sources destinations]
    exact List.mem_map_of_mem _ hx
  refine ⟨?_, ?_, ?_⟩
  · rw [← mem_compile_order hac, ← compile_exec_info graph tensor_binds sources destinations]
    simp only [List.mem_map]
  · rw [compile_graph_execs, mem_compile_order hac]
    tauto
  · intro hoff run_sources run_destinations n hn
    have hlt := run_subset_nodes _ _ _ _ hn
    refine ⟨_, List.getElem?_eq_getElem hlt, ?_⟩
    intro heq
    have := hnode _ (List.getElem_mem hlt)
    rw [heq, mem_compile_order hac] at this
    exact hoff this.2

theorem compile_keeps_exactly_the_span_witness :
    acyclic (build two_branch_ops).edges ∧
    ((ccv_nnc_graph_exec_from_symbol
        (ccv_nnc_symbolic_graph_compile (build two_branch_ops) [] [0] [3]).2.2 3).isSome ↔
      3 < (build two_branch_ops).exec_symbols.length ∧
        on_span (build two_branch_ops).edges [0] [3] 3) :=
  ⟨build_acyclic two_branch_ops,
   (compile_keeps_exactly_the_span (build two_branch_ops) [] [0] [3]
     (build_acyclic two_branch_ops) 3).2.1⟩

/-! ## Searching an initial segment of the naturals -/

section chain

variable {graph : ccv_nnc_symbolic_graph_t} {n : Nat} {info : ccv_nnc_tensor_param_t}
  {execs tensors : List Nat}

end chain

section chain_arena

variable {graph : ccv_nnc_symbolic_graph_t} {n : Nat} {info : ccv_nnc_tensor_param_t}
  {execs tensors : List Nat}

end chain_arena

theorem backward_tensor_symbols_length (graph : ccv_nnc_symbolic_graph_t)
    (sources destinations f_symbols wrt_symbols : List Nat) :
    (ccv_nnc_symbolic_graph_backward graph sources destinations f_symbols
      wrt_symbols).tensor_symbols.length =
      graph.tensor_symbols.length +
        (differentiated_symbols graph sources destinations f_symbols wrt_symbols).length := by
  simp [ccv_nnc_symbolic_graph_backward]

theorem backward_mapping_fresh (graph : ccv_nnc_symbolic_graph_t)
    (sources destinations f_symbols wrt_symbols : List Nat) (p : Nat × Nat)
    (hp : p ∈ (ccv_nnc_symbolic_graph_backward graph sources destinations f_symbols
      wrt_symbols).backward_tensor_symbols) :
    graph.tensor_symbols.length ≤ p.2 ∧
    p.2 < (ccv_nnc_symbolic_graph_backward graph sources destinations f_symbols
      wrt_symbols).tensor_symbols.length := by
  rw [backward_tensor_symbols_length]
  have h2 := (List.of_mem_zip (a := p.1) (b := p.2) hp).2
  rw [List.mem_range'_1] at h2
  exact h2

theorem for_backward_mem (graph : ccv_nnc_symbolic_graph_t) (t s : Nat)
    (h : ccv_nnc_tensor_symbol_for_backward graph t = some s) :
    (t, s) ∈ graph.backward_tensor_symbols := by
  unfold ccv_nnc_tensor_symbol_for_backward at h
  rw [Option.map_eq_some'] at h
  obtain ⟨p, hp, rfl⟩ := h
  have h1 := List.find?_some hp
  have h2 := List.mem_of_find?_eq_some hp
  simp only [decide_eq_true_eq] at h1
  rw [← h1]
  exact h2

theorem differentiated_symbols_nodup (graph : ccv_nnc_symbolic_graph_t)
    (sources destinations f_symbols wrt_symbols : List Nat) :
    (differentiated_symbols graph sources destinations f_symbols wrt_symbols).Nodup :=
  (List.nodup_range _).filter _

theorem find?_zip_range' (l : List Nat) (hl : l.Nodup) (b i t : Nat) (hi : l[i]? = some t) :
    (l.zip (List.range' b l.length)).find? (fun p => decide (p.1 = t)) = some (t, b + i) := by
  induction l generalizing b i with
  | nil => simp at hi
  | cons a l ih =>
    rw [List.length_cons, List.range'_succ, List.zip_cons_cons, List.find?_cons]
    cases i with
    | zero =>
      simp only [List.getElem?_cons_zero, Option.some.injEq] at hi
      subst hi
      simp
    | succ i =>
      simp only [List.getElem?_cons_succ] at hi
      have hmem : t ∈ l := List.getElem?_mem hi
      have hne : a ≠ t := by
        rintro rfl
        exact (List.nodup_cons.1 hl).1 hmem
      simp only [hne, decide_False]
      rw [ih (List.nodup_cons.1 hl).2 (b + 1) i hi]
      congr 2
      omega

theorem backward_lookup (graph : ccv_nnc_symbolic_graph_t)
    (sources destinations f_symbols wrt_symbols : List Nat) (i t : Nat)
    (hi : (differentiated_symbols graph sources destinations f_symbols wrt_symbols)[i]? =
      some t) :
    ccv_nnc_tensor_symbol_for_backward
      (ccv_nnc_symbolic_graph_backward graph sources destinations f_symbols wrt_symbols) t =
      some (graph.tensor_symbols.length + i) := by
  unfold ccv_nnc_tensor_symbol_for_backward
  simp only [ccv_nnc_symbolic_graph_backward]
  rw [find?_zip_range' _ (differentiated_symbols_nodup _ _ _ _ _) _ i t hi]
  rfl

theorem backward_lookup_none (graph : ccv_nnc_symbolic_graph_t)
    (sources destinations f_symbols wrt_symbols : List Nat) (t : Nat)
    (ht : t ∉ differentiated_symbols graph sources destinations f_symbols wrt_symbols) :
    ccv_nnc_tensor_symbol_for_backward
      (ccv_nnc_symbolic_graph_backward graph sources destinations f_symbols wrt_symbols) t =
      none := by
  unfold ccv_nnc_tensor_symbol_for_backward
  simp only [ccv_nnc_symbolic_graph_backward]
  rw [Option.map_eq_none', List.find?_eq_none]
  intro p hp hpt
  simp only [decide_eq_true_eq] at hpt
  apply ht
  rw [← hpt]
  exact (List.of_mem_zip (a := p.1) (b := p.2) hp).1

theorem backward_gradient_symbol (graph : ccv_nnc_symbolic_graph_t)
    (sources destinations f_symbols wrt_symbols : List Nat) (i t : Nat)
    (hi : (differentiated_symbols graph sources destinations f_symbols wrt_symbols)[i]? =
      some t) :
    (ccv_nnc_symbolic_graph_backward graph sources destinations f_symbols
      wrt_symbols).tensor_symbols[graph.tensor_symbols.length + i]? =
      some ⟨(graph.tensor_symbols.getD t ⟨⟨[]⟩, none⟩).info, none⟩ := by
  simp only [ccv_nnc_symbolic_graph_backward]
  rw [List.getElem?_append_right (Nat.le_add_right _ _), Nat.add_sub_cancel_left,
    List.getElem?_map, hi]
  rfl

/-- C5: after `ccv_nnc_symbolic_graph_backward` has run twice with the same
arguments, `ccv_nnc_tensor_symbol_for_backward` maps the `i`-th forward symbol
the second call differentiates to the `i`-th tensor symbol the second call
appended, a gradient symbol of the forward symbol's shape that did not exist
after the first call, and maps every other symbol to nothing; every gradient
symbol it returns was created by the second call, and no pair of the first
call's mapping is in the mapping any more. -/
theorem backward_twice_replaces_mapping (graph : ccv_nnc_symbolic_graph_t)
    (sources destinations f_symbols wrt_symbols : List Nat) :
    (∀ i t : Nat,
      (differentiated_symbols
        (ccv_nnc_symbolic_graph_backward graph sources destinations f_symbols wrt_symbols)
        sources destinations f_symbols wrt_symbols)[i]? = some t →
      ccv_nnc_tensor_symbol_for_backward
        (backward_twice graph sources destinations f_symbols wrt_symbols) t =
        some ((ccv_nnc_symbolic_graph_backward graph sources destinations f_symbols
          wrt_symbols).tensor_symbols.length + i) ∧
      (backward_twice graph sources destinations f_symbols wrt_symbols).tensor_symbols[
        (ccv_nnc_symbolic_graph_backward graph sources destinations f_symbols
          wrt_symbols).tensor_symbols.length + i]? =
        some ⟨((ccv_nnc_symbolic_graph_backward graph sources destinations f_symbols
          wrt_symbols).tensor_symbols.getD t ⟨⟨[]⟩, none⟩).info, none⟩) ∧
    (∀ t : Nat,
      t ∉ differentiated_symbols
        (ccv_nnc_symbolic_graph_backward graph sources destinations f_symbols wrt_symbols)
        sources destinations f_symbols wrt_symbols →
      ccv_nnc_tensor_symbol_for_backward
        (backward_twice graph sources destinations f_symbols wrt_symbols) t = none) ∧
    (∀ t s : Nat,
      ccv_nnc_tensor_symbol_for_backward
        (backward_twice graph sources destinations f_symbols wrt_symbols) t = some s →
      (ccv_nnc_symbolic_graph_backward graph sources destinations f_symbols
        wrt_symbols).tensor_symbols.length ≤ s ∧
      s < (backward_twice graph sources destinations f_symbols
        wrt_symbols).tensor_symbols.length) ∧
    (∀ p ∈ (ccv_nnc_symbolic_graph_backward graph sources destinations f_symbols
        wrt_symbols).backward_tensor_symbols,
      p ∉ (backward_twice graph sources destinations f_symbols
        wrt_symbols).backward_tensor_symbols) := by
  refine ⟨?_, ?_, ?_, ?_⟩
  · intro i t hi
    exact ⟨backward_lookup _ _ _ _ _ i t hi, backward_gradient_symbol _ _ _ _ _ i t hi⟩
  · intro t ht
    exact backward_lookup_none _ _ _ _ _ t ht
  · intro t s h
    exact backward_mapping_fresh _ _ _ _ _ (t, s) (for_backward_mem _ t s h)
  · intro p hp1 hp2
    have h1 := (backward_mapping_fresh _ _ _ _ _ p hp1).2
    have h2 := (backward_mapping_fresh _ _ _ _ _ p hp2).1
    omega

theorem backward_twice_replaces_mapping_witness :
    (differentiated_symbols
      (ccv_nnc_symbolic_graph_backward (build three_step_ops) [0] [2] [3] [0])
      [0] [2] [3] [0])[1]? = some 1 ∧
    ccv_nnc_tensor_symbol_for_backward (backward_twice (build three_step_ops) [0] [2] [3] [0])
      1 = some ((ccv_nnc_symbolic_graph_backward (build three_step_ops) [0] [2] [3]
        [0]).tensor_symbols.length + 1) ∧
    (backward_twice (build three_step_ops) [0] [2] [3] [0]).tensor_symbols[
      (ccv_nnc_symbolic_graph_backward (build three_step_ops) [0] [2] [3]
        [0]).tensor_symbols.length + 1]? =
      some ⟨((ccv_nnc_symbolic_graph_backward (build three_step_ops) [0] [2] [3]
        [0]).tensor_symbols.getD 1 ⟨⟨[]⟩, none⟩).info, none⟩ :=
  ⟨by decide,
   (backward_twice_replaces_mapping (build three_step_ops) [0] [2] [3] [0]).1 1 1 (by decide)⟩

/-! ## Constants of the header -/

/-- C7: the four kernel statuses are pairwise distinct, success is `0`, each
failure status is negative, and a status is `0` exactly when it is success. -/
theorem exec_statuses_distinct :
    exec_statuses.Nodup ∧ CCV_NNC_EXEC_SUCCESS = 0 ∧ CCV_NNC_EXEC_INVALID < 0 ∧
    CCV_NNC_EXEC_NO_KERNEL < 0 ∧ CCV_NNC_EXEC_OOM < 0 ∧
    ∀ s ∈ exec_statuses, (s = 0 ↔ s = CCV_NNC_EXEC_SUCCESS) := by
  decide

set_option maxRecDepth 100000 in
theorem stream_type_table :
    ∀ d < 256, ∀ c < 3, 0 < c →
      CCV_STREAM_GET_CONTEXT (stream_type c d) = c ∧
      CCV_STREAM_GET_DEVICE_ID (stream_type c d) = d := by
  decide

/-- C8: for a domain `c` that is CPU or GPU and a device index `d ≤ 255`, the
tag `c | (d << 8)` gives back `c` under `CCV_STREAM_GET_CONTEXT` and `d` under
`CCV_STREAM_GET_DEVICE_ID`. -/
theorem stream_type_roundtrip (c d : Nat)
    (hc : c = CCV_STREAM_CONTEXT_CPU ∨ c = CCV_STREAM_CONTEXT_GPU) (hd : d ≤ 255) :
    CCV_STREAM_GET_CONTEXT (stream_type c d) = c ∧
    CCV_STREAM_GET_DEVICE_ID (stream_type c d) = d := by
  have h3 : c < 3 ∧ 0 < c := by
    rcases hc with rfl | rfl <;> decide
  exact stream_type_table d (by omega) c h3.1 h3.2

theorem stream_type_roundtrip_witness :
    CCV_STREAM_GET_CONTEXT (stream_type CCV_STREAM_CONTEXT_GPU 7) = CCV_STREAM_CONTEXT_GPU ∧
    CCV_STREAM_GET_DEVICE_ID (stream_type CCV_STREAM_CONTEXT_GPU 7) = 7 :=
  stream_type_roundtrip CCV_STREAM_CONTEXT_GPU 7 (Or.inr rfl) (by decide)

theorem attr_flag_meet (x f : Nat) (hx : x ∈ compute_attr_flags) (hf : f ∈ compute_attr_flags) :
    x &&& f ≠ 0 ↔ x = f := by
  simp only [compute_attr_flags, List.mem_cons, List.mem_singleton, List.not_mem_nil,
    or_false] at hx hf
  rcases hx with rfl | rfl | rfl | rfl <;> rcases hf with rfl | rfl | rfl | rfl <;> decide

theorem attr_is_set_cons (x f : Nat) (flags : List Nat) :
    attr_is_set (attrs_of (x :: flags)) f =
      (attr_is_set x f || attr_is_set (attrs_of flags) f) := by
  unfold attr_is_set
  show ((x ||| attrs_of flags) &&& f != 0) = _
  rw [Nat.and_distrib_right, Bool.eq_iff_iff]
  simp only [bne_iff_ne, ne_eq, Bool.or_eq_true]
  rw [← not_and_or, not_iff_not]
  constructor
  · intro h
    constructor
    · apply Nat.eq_of_testBit_eq
      intro i
      have := congrArg (fun v => v.testBit i) h
      simp only [Nat.testBit_or, Nat.zero_testBit, Bool.or_eq_false_iff] at this
      simpa using this.1
    · apply Nat.eq_of_testBit_eq
      intro i
      have := congrArg (fun v => v.testBit i) h
      simp only [Nat.testBit_or, Nat.zero_testBit, Bool.or_eq_false_iff] at this
      simpa using this.2
  · rintro ⟨h1, h2⟩
    rw [h1, h2]
    rfl

/-- C10: the four attribute flags are non-zero and pairwise disjoint, and for
every list `S` of attribute flags the word obtained by OR-ing `S` has flag `f`
set exactly when `f` is in `S`. -/
theorem attrs_read_independently :
    (∀ f ∈ compute_attr_flags, f ≠ 0) ∧
    compute_attr_flags.Pairwise (fun a b => a &&& b = 0) ∧
    ∀ S : List Nat, (∀ x ∈ S, x ∈ compute_attr_flags) →
      ∀ f ∈ compute_attr_flags, (attr_is_set (attrs_of S) f = true ↔ f ∈ S) := by
  refine ⟨by decide, by decide, ?_⟩
  intro S hS f hf
  induction S with
  | nil => simp [attr_is_set, attrs_of]
  | cons x S ih =>
    rw [attr_is_set_cons, Bool.or_eq_true, ih (fun y hy => hS y (List.mem_cons_of_mem _ hy)),
      List.mem_cons]
    have hx := attr_flag_meet x f (hS x (List.mem_cons_self _ _)) hf
    unfold attr_is_set
    rw [bne_iff_ne, hx]
    constructor
    · rintro (h | h)
      · exact Or.inl h.symm
      · exact Or.inr h
    · rintro (h | h)
      · exact Or.inl h.symm
      · exact Or.inr h

theorem attrs_read_independently_witness :
    (attr_is_set (attrs_of [CCV_NNC_COMPUTE_ATTR_INPLACE, CCV_NNC_COMPUTE_ATTR_OUTPUT_ONES])
        CCV_NNC_COMPUTE_ATTR_PASSTHROUGH = true ↔
      CCV_NNC_COMPUTE_ATTR_PASSTHROUGH ∈
        [CCV_NNC_COMPUTE_ATTR_INPLACE, CCV_NNC_COMPUTE_ATTR_OUTPUT_ONES]) :=
  attrs_read_independently.2.2 [CCV_NNC_COMPUTE_ATTR_INPLACE, CCV_NNC_COMPUTE_ATTR_OUTPUT_ONES]
    (by decide) CCV_NNC_COMPUTE_ATTR_PASSTHROUGH (by decide)

/-- C9: in the documented layout, for a forward command with one input and two
outputs, input position 1 of the backward command is given two roles at once,
gradient of a forward output and forward input. -/
theorem backward_layout_overlaps :
    backward_input_roles 1 2 1 =
      [backward_input_role.output_gradient, backward_input_role.forward_input] := by
  decide

/-- With a single forward output the documented layout does give every input
position `0 .. n + 1` exactly one role. -/
theorem backward_layout_single_output (n pos : Nat) (hpos : pos ≤ n + 1) :
    (backward_input_roles n 1 pos).length = 1 := by
  unfold backward_input_roles
  by_cases h0 : pos = 0
  · subst h0
    simp
  · by_cases h1 : pos ≤ n
    · have : ¬ (n + 1 ≤ pos ∧ pos ≤ n + 1) := by omega
      have h2 : 1 ≤ pos ∧ pos ≤ n := by omega
      simp [h0, h2, this]
    · have : n + 1 ≤ pos ∧ pos ≤ n + 1 := by omega
      have h2 : ¬ (1 ≤ pos ∧ pos ≤ n) := by omega
      simp [h0, h2, this]

/-! ## Signatures -/

/-- C6, refuting it as stated: compilation, execution and differentiation are
declared `void`, so none of the three hands a status back to its caller. -/
theorem compile_run_backward_return_no_status :
    returns_status "ccv_nnc_symbolic_graph_compile" = false ∧
    returns_status "ccv_nnc_graph_run" = false ∧
    returns_status "ccv_nnc_symbolic_graph_backward" = false := by
  decide

/-- C6 as amended: compilation, execution and differentiation are declared
`void` and so return nothing to their caller; the functions the header
declares `int` are exactly the thirteen listed, and the four functions
commented "Return non-zero if cannot ..." are among them. -/
theorem status_returns_as_declared :
    declared_return "ccv_nnc_symbolic_graph_compile" = some c_return.void ∧
    declared_return "ccv_nnc_graph_run" = some c_return.void ∧
    declared_return "ccv_nnc_symbolic_graph_backward" = some c_return.void ∧
    declared_int =
      ["ccv_nnc_tensor_eq", "ccv_nnc_cmd_backend", "ccv_nnc_hint_verify", "ccv_nnc_cmd_exec",
       "ccv_nnc_cmd_attr", "ccv_nnc_cmd_is_forward", "ccv_nnc_cmd_is_backward",
       "ccv_nnc_graph_exec_concat", "ccv_nnc_graph_exec_symbol_set_hint",
       "ccv_nnc_tensor_symbol_set", "ccv_nnc_graph_exec_symbol_concat",
       "ccv_nnc_graph_exec_symbol_flow", "ccv_nnc_graph_while"] ∧
    (∀ name ∈ commented_nonzero_on_failure, name ∈ declared_int) := by
  decide

/-- C3: the declaration of `ccv_nnc_symbolic_graph_compile` has these ten
parameters and no other; none of them carries the protected tensor symbols
(`tensor_symbol_consts`) that the comment above the declaration describes. -/
theorem compile_declares_no_protected_set :
    declared_params "ccv_nnc_symbolic_graph_compile" =
      ["graph", "tensor_binds", "tensor_binds_size", "sources", "source_size",
       "destinations", "destination_size", "graph_ref", "tensor_arena_ref",
       "graph_exec_arena_ref"] ∧
    "tensor_symbol_consts" ∉ declared_params "ccv_nnc_symbolic_graph_compile" := by
  decide

/-! ## Forward and backward kinds -/

set_option maxRecDepth 100000 in
theorem kind_direction_table :
    ∀ k < 34, 1 < k →
      (is_forward_kind k = !is_backward_kind k) ∧ (is_forward_kind k = decide (k % 2 = 0)) := by
  decide

set_option maxRecDepth 100000 in
theorem forward_partner_table :
    ∀ k < 34, 1 < k → is_forward_kind k = true →
      backward_kind_of k = k + 1 ∧ is_backward_kind (k + 1) = true ∧ k + 1 < 34 := by
  decide

set_option maxRecDepth 100000 in
theorem backward_partner_table :
    ∀ k < 34, 1 < k → is_backward_kind k = true →
      1 < k - 1 ∧ is_forward_kind (k - 1) = true ∧ backward_kind_of (k - 1) = k := by
  decide

/-- C11: every kind `k` strictly between `CCV_NNC_COMPUTE_NOOP` and
`CCV_NNC_COMPUTE_COUNT` is a forward kind or a backward kind and not both; it
is a forward kind exactly when its code is even; the backward kind of a
forward kind `k` is the kind with code `k + 1`, and every backward kind is the
partner of the forward kind just before it; `CCV_NNC_COMPUTE_COUNT - 2` is
even, there are 16 forward and 16 backward kinds, and the 16 pairs listed one
after the other are exactly the codes `2 .. 33`. -/
theorem compute_kinds_pair_up :
    (∀ k : Nat, CCV_NNC_COMPUTE_NOOP < k → k < CCV_NNC_COMPUTE_COUNT →
      (is_forward_kind k = true ∨ is_backward_kind k = true) ∧
      ¬ (is_forward_kind k = true ∧ is_backward_kind k = true) ∧
      (is_forward_kind k = true ↔ k % 2 = 0) ∧
      (is_forward_kind k = true →
        backward_kind_of k = k + 1 ∧ is_backward_kind (k + 1) = true ∧
        k + 1 < CCV_NNC_COMPUTE_COUNT) ∧
      (is_backward_kind k = true →
        CCV_NNC_COMPUTE_NOOP < k - 1 ∧ is_forward_kind (k - 1) = true ∧
        backward_kind_of (k - 1) = k)) ∧
    (CCV_NNC_COMPUTE_COUNT - 2) % 2 = 0 ∧
    forward_kinds.length = 16 ∧ backward_kinds.length = 16 ∧
    forward_kinds.flatMap (fun k => [k, backward_kind_of k]) =
      List.range' (CCV_NNC_COMPUTE_NOOP + 1) (CCV_NNC_COMPUTE_COUNT - 2) := by
  have hnoop : CCV_NNC_COMPUTE_NOOP = 1 := by decide
  have hcount : CCV_NNC_COMPUTE_COUNT = 34 := by decide
  rw [hnoop, hcount]
  refine ⟨?_, by decide, by decide, by decide, by decide⟩
  intro k h1 h2
  obtain ⟨ha, hb⟩ := kind_direction_table k h2 h1
  refine ⟨?_, ?_, ?_, forward_partner_table k h2 h1, backward_partner_table k h2 h1⟩
  · cases hf : is_forward_kind k
    · rw [hf] at ha
      right
      simpa using ha.symm
    · exact Or.inl rfl
  · rintro ⟨hf, hbk⟩
    rw [hf, hbk] at ha
    cases ha
  · rw [hb, decide_eq_true_eq]

theorem compute_kinds_pair_up_witness :
    (is_forward_kind 16 = true ∨ is_backward_kind 16 = true) ∧
    ¬ (is_forward_kind 16 = true ∧ is_backward_kind 16 = true) ∧
    (is_forward_kind 16 = true ↔ 16 % 2 = 0) ∧
    (is_forward_kind 16 = true →
      backward_kind_of 16 = 16 + 1 ∧ is_backward_kind (16 + 1) = true ∧
      16 + 1 < CCV_NNC_COMPUTE_COUNT) ∧
    (is_backward_kind 16 = true →
      CCV_NNC_COMPUTE_NOOP < 16 - 1 ∧ is_forward_kind (16 - 1) = true ∧
      backward_kind_of (16 - 1) = 16) :=
  compute_kinds_pair_up.1 16 (by decide) (by decide)

end Ccv
